import Mathlib

/-!
Verification of `src/exceptions/export/export-ignore-rules.py`, a paginated
export utility for FOSSA issue-exception records.

The script is embedded shallowly:

* JSON values (the bodies of HTTP responses and the accumulated records) are
  the inductive type `Json`.  JSON numbers are modelled as integers; the
  script never manipulates numbers, it only moves them between the HTTP
  response and the output file.
* Python truthiness (`if data and ...`, `if not items`), the membership test
  `'exceptions' in data`, the subscript `data['exceptions']` and
  `list.extend` are modelled by `truthy`, `pyIn`, `getItem` and `pyIter`;
  operations that raise a Python exception return `Except.error`.
* The HTTP layer is modelled by giving `fetch_data` the finite list of
  responses the server would produce, one per successive request; the loop
  consumes them in order and records every request it issues.
-/

/-- A JSON value, as produced by `response.json()`. -/
inductive Json where
  | null : Json
  | bool : Bool → Json
  | num : Int → Json
  | str : String → Json
  | arr : List Json → Json
  | obj : List (String × Json) → Json

mutual

/-- Boolean structural equality on `Json` (Python `==` restricted to the
JSON values this program handles). -/
def beqJ : Json → Json → Bool
  | .null, .null => true
  | .bool a, .bool b => a == b
  | .num a, .num b => a == b
  | .str a, .str b => a == b
  | .arr xs, .arr ys => beqL xs ys
  | .obj xs, .obj ys => beqO xs ys
  | _, _ => false

def beqL : List Json → List Json → Bool
  | a :: as, b :: bs => beqJ a b && beqL as bs
  | [], [] => true
  | _, _ => false

def beqO : List (String × Json) → List (String × Json) → Bool
  | (k, v) :: as, (l, w) :: bs => k == l && beqJ v w && beqO as bs
  | [], [] => true
  | _, _ => false

end

mutual

theorem beqJ_eq : ∀ a b : Json, beqJ a b = true ↔ a = b
  | .null, b => by cases b <;> simp [beqJ]
  | .bool x, b => by cases b <;> simp [beqJ]
  | .num x, b => by cases b <;> simp [beqJ]
  | .str x, b => by cases b <;> simp [beqJ]
  | .arr xs, b => by
      cases b <;> simp [beqJ]
      exact beqL_eq xs _
  | .obj xs, b => by
      cases b <;> simp [beqJ]
      exact beqO_eq xs _

theorem beqL_eq : ∀ a b : List Json, beqL a b = true ↔ a = b
  | [], b => by cases b <;> simp [beqL]
  | x :: xs, b => by
      cases b with
      | nil => simp [beqL]
      | cons y ys => simp [beqL, beqJ_eq x y, beqL_eq xs ys]

theorem beqO_eq : ∀ a b : List (String × Json), beqO a b = true ↔ a = b
  | [], b => by cases b <;> simp [beqO]
  | (k, v) :: xs, b => by
      cases b with
      | nil => simp [beqO]
      | cons y ys =>
          obtain ⟨l, w⟩ := y
          simp [beqO, beqJ_eq v w, beqO_eq xs ys, Prod.ext_iff, and_assoc]

end

instance : DecidableEq Json := fun a b => decidable_of_iff _ (beqJ_eq a b)

/-- Python truthiness of a JSON value (`bool(data)`). -/
def truthy : Json → Bool
  | .null => false
  | .bool b => b
  | .num n => n != 0
  | .str s => s != ""
  | .arr xs => !xs.isEmpty
  | .obj kvs => !kvs.isEmpty

/-- Whether `pat` occurs as a contiguous run inside the second list. -/
def listInfixOf (pat : List Char) : List Char → Bool
  | [] => pat.isEmpty
  | c :: cs => pat.isPrefixOf (c :: cs) || listInfixOf pat cs

/-- Python `key in data`: key membership for a dict, element membership for a
list, substring test for a string; `TypeError` on the remaining (non-container)
values. -/
def pyIn (key : String) : Json → Except String Bool
  | .obj kvs => .ok (kvs.any (fun kv => kv.1 == key))
  | .arr xs => .ok (xs.any (fun x => beqJ x (.str key)))
  | .str s => .ok (listInfixOf key.data s.data)
  | _ => .error "TypeError: argument of type is not iterable"

/-- The guard `data and 'exceptions' in data` of the pagination loop, in a
boolean position: `and` short-circuits, so a falsy `data` never reaches the
membership test. -/
def guardEval (key : String) (data : Json) : Except String Bool :=
  if truthy data then pyIn key data else .ok false

/-- Association-list lookup, as a Python dict subscript would resolve a key. -/
def jLookup (key : String) (kvs : List (String × Json)) : Option Json :=
  (kvs.find? (fun kv => kv.1 == key)).map (fun kv => kv.2)

/-- Python `data[key]` for a string key: dict lookup (`KeyError` when absent),
`TypeError` on any non-dict value. -/
def getItem (key : String) : Json → Except String Json
  | .obj kvs =>
      match jLookup key kvs with
      | some v => .ok v
      | none => .error "KeyError"
  | _ => .error "TypeError: indices must be integers"

/-- Python iteration as used by `results.extend(items)`: a list yields its
elements, a dict its keys, a string its characters; `TypeError` otherwise. -/
def pyIter : Json → Except String (List Json)
  | .arr xs => .ok xs
  | .obj kvs => .ok (kvs.map (fun kv => Json.str kv.1))
  | .str s => .ok (s.data.map (fun c => Json.str (String.mk [c])))
  | _ => .error "TypeError: not iterable"

/-- One HTTP response as seen by the loop: the status code and the parsed
JSON body. -/
structure Response where
  status : Nat
  body : Json
  deriving DecidableEq

/-- One HTTP request as issued by `requests.get(url, headers=headers)`. -/
structure Request where
  url : String
  headers : List (String × String)
  deriving DecidableEq

/-- The URL template at the top of the script. -/
def base_url : String :=
  "https://app.fossa.com/api/v2/issues/exceptions?filters[category]=\x7bcategory\x7d&page=\x7bpage\x7d&count=\x7bcount\x7d"

/-- `base_url.format(category=category, page=page, count=count)`: each
placeholder of the template replaced by the argument's string form. -/
def formatUrl (category : String) (page : Nat) (count : Int) : String :=
  "https://app.fossa.com/api/v2/issues/exceptions?filters[category]=" ++ category
    ++ "&page=" ++ toString page ++ "&count=" ++ toString count

/-- The header dict built at the top of `fetch_data`. -/
def requestHeaders (access_token : String) : List (String × String) :=
  [("accept", "application/json"), ("authorization", "Bearer " ++ access_token)]

/-- The request `requests.get(url, headers=headers)` issues for a given page. -/
def mkRequest (category : String) (count : Int) (access_token : String) (page : Nat) : Request :=
  { url := formatUrl category page count, headers := requestHeaders access_token }

/-- The `while True` pagination loop of `fetch_data`, one iteration per list
element: `responses` are the bodies the server would answer with on the
successive requests, `page` the loop counter, `acc` the `results` accumulator.
Returns the requests issued together with the final `results` (or the Python
exception that escaped the loop).  When `responses` is exhausted the server
has no further pages and the accumulated results stand. -/
def fetchGo (category : String) (count : Int) (access_token : String) :
    List Response → Nat → List Json → List Request × Except String (List Json)
  | [], _, acc => ([], Except.ok acc)
  | r :: rest, page, acc =>
    let req := mkRequest category count access_token page
    if r.status = 200 then
      match guardEval "exceptions" r.body with
      | .error e => ([req], .error e)
      | .ok false => ([req], Except.ok acc)
      | .ok true =>
        match getItem "exceptions" r.body with
        | .error e => ([req], .error e)
        | .ok items =>
          if truthy items then
            match pyIter items with
            | .error e => ([req], .error e)
            | .ok elems =>
              let next := fetchGo category count access_token rest (page + 1) (acc ++ elems)
              (req :: next.1, next.2)
          else ([req], Except.ok acc)
    else ([req], Except.ok acc)

/-- `fetch_data(category, count, access_token)`: run the pagination loop from
page 1 with an empty accumulator. -/
def fetchData (category : String) (count : Int) (access_token : String)
    (responses : List Response) : List Request × Except String (List Json) :=
  fetchGo category count access_token responses 1 []

/-- A response that lets the loop continue: HTTP 200 and a JSON object whose
`exceptions` field holds the non-empty array `items`. -/
def hasItems (r : Response) (items : List Json) : Prop :=
  r.status = 200 ∧ ∃ kvs, r.body = Json.obj kvs ∧
    jLookup "exceptions" kvs = some (Json.arr items) ∧ items ≠ []

/-- A 200 response that ends pagination normally: a JSON object that either
lacks the `exceptions` field or maps it to an empty array. -/
def stopPage (r : Response) : Prop :=
  r.status = 200 ∧ ∃ kvs, r.body = Json.obj kvs ∧
    (jLookup "exceptions" kvs = none ∨ jLookup "exceptions" kvs = some (Json.arr []))

theorem fetchGo_cons_hasItems {r : Response} {items : List Json}
    (h : hasItems r items) (category : String) (count : Int) (access_token : String)
    (rest : List Response) (page : Nat) (acc : List Json) :
    fetchGo category count access_token (r :: rest) page acc =
      (mkRequest category count access_token page ::
        (fetchGo category count access_token rest (page + 1) (acc ++ items)).1,
       (fetchGo category count access_token rest (page + 1) (acc ++ items)).2) := by
  obtain ⟨h200, kvs, hbody, hlook, hne⟩ := h
  have hmem : ∃ kv, kvs.find? (fun kv => kv.1 == "exceptions") = some kv ∧
      kv.2 = Json.arr items := by
    unfold jLookup at hlook
    cases hfind : kvs.find? (fun kv => kv.1 == "exceptions") with
    | none => simp [hfind] at hlook
    | some kv => exact ⟨kv, rfl, by simpa [hfind] using hlook⟩
  obtain ⟨kv, hfind, hkv⟩ := hmem
  have hkvs_ne : kvs ≠ [] := by
    intro hnil
    subst hnil
    simp at hfind
  have hp := List.find?_some hfind
  have hany : kvs.any (fun kv => kv.1 == "exceptions") = true := by
    rw [List.any_eq_true]
    exact ⟨kv, List.mem_of_find?_eq_some hfind, hp⟩
  have hguard : guardEval "exceptions" r.body = .ok true := by
    rw [hbody]
    simp [guardEval, truthy, List.isEmpty_iff, hkvs_ne, pyIn, hany]
  have hget : getItem "exceptions" r.body = .ok (Json.arr items) := by
    rw [hbody]
    simp [getItem, jLookup, hfind, hkv]
  have hitems : truthy (Json.arr items) = true := by
    simp [truthy, List.isEmpty_iff, hne]
  simp [fetchGo, h200, hguard, hget, hitems, pyIter]

theorem fetchGo_cons_stopPage {r : Response}
    (h : stopPage r) (category : String) (count : Int) (access_token : String)
    (rest : List Response) (page : Nat) (acc : List Json) :
    fetchGo category count access_token (r :: rest) page acc =
      ([mkRequest category count access_token page], Except.ok acc) := by
  obtain ⟨h200, kvs, hbody, hcase⟩ := h
  cases hcase with
  | inl hnone =>
      have hfind : kvs.find? (fun kv => kv.1 == "exceptions") = none := by
        unfold jLookup at hnone
        cases hfind : kvs.find? (fun kv => kv.1 == "exceptions") with
        | none => rfl
        | some kv => simp [hfind] at hnone
      have hguard : guardEval "exceptions" r.body = .ok false := by
        unfold guardEval
        by_cases htr : truthy r.body = true
        · have hany : kvs.any (fun kv => kv.1 == "exceptions") = false := by
            rw [List.find?_eq_none] at hfind
            simp only [List.any_eq_false]
            intro kv hkv
            simpa using hfind kv hkv
          simp [htr, hbody, pyIn, hany]
        · simp [htr]
      simp [fetchGo, h200, hguard]
  | inr hsome =>
      have hmem : ∃ kv, kvs.find? (fun kv => kv.1 == "exceptions") = some kv ∧
          kv.2 = Json.arr [] := by
        unfold jLookup at hsome
        cases hfind : kvs.find? (fun kv => kv.1 == "exceptions") with
        | none => simp [hfind] at hsome
        | some kv => exact ⟨kv, rfl, by simpa [hfind] using hsome⟩
      obtain ⟨kv, hfind, hkv⟩ := hmem
      have hkvs_ne : kvs ≠ [] := by
        intro hnil
        subst hnil
        simp at hfind
      have hp := List.find?_some hfind
      have hany : kvs.any (fun kv => kv.1 == "exceptions") = true := by
        rw [List.any_eq_true]
        exact ⟨kv, List.mem_of_find?_eq_some hfind, hp⟩
      have hguard : guardEval "exceptions" r.body = .ok true := by
        rw [hbody]
        simp [guardEval, truthy, List.isEmpty_iff, hkvs_ne, pyIn, hany]
      have hget : getItem "exceptions" r.body = .ok (Json.arr []) := by
        rw [hbody]
        simp [getItem, jLookup, hfind, hkv]
      simp [fetchGo, h200, hguard, hget, truthy]

theorem fetchGo_cons_non200 {r : Response}
    (h : r.status ≠ 200) (category : String) (count : Int) (access_token : String)
    (rest : List Response) (page : Nat) (acc : List Json) :
    fetchGo category count access_token (r :: rest) page acc =
      ([mkRequest category count access_token page], Except.ok acc) := by
  simp [fetchGo, h]

theorem fetchGo_cons_falsy {r : Response}
    (h200 : r.status = 200) (hfalsy : truthy r.body = false)
    (category : String) (count : Int) (access_token : String)
    (rest : List Response) (page : Nat) (acc : List Json) :
    fetchGo category count access_token (r :: rest) page acc =
      ([mkRequest category count access_token page], Except.ok acc) := by
  have hguard : guardEval "exceptions" r.body = .ok false := by
    simp [guardEval, hfalsy]
  simp [fetchGo, h200, hguard]

theorem range_succ_map_mkRequest (category : String) (count : Int) (access_token : String)
    (page n : Nat) :
    (List.range (n + 1)).map (fun i => mkRequest category count access_token (page + i)) =
      mkRequest category count access_token page ::
        (List.range n).map (fun i => mkRequest category count access_token (page + 1 + i)) := by
  rw [List.range_succ_eq_map]
  simp only [List.map_cons, List.map_map, Nat.add_zero]
  congr 1
  apply List.map_congr_left
  intro i _
  simp only [Function.comp_apply]
  congr 1
  omega

theorem fetchGo_append_hasItems {rs : List Response} {itemss : List (List Json)}
    (h : List.Forall₂ hasItems rs itemss)
    (category : String) (count : Int) (access_token : String) :
    ∀ (tail : List Response) (page : Nat) (acc : List Json),
    fetchGo category count access_token (rs ++ tail) page acc =
      ((List.range rs.length).map (fun i => mkRequest category count access_token (page + i)) ++
        (fetchGo category count access_token tail (page + rs.length) (acc ++ itemss.flatten)).1,
       (fetchGo category count access_token tail (page + rs.length) (acc ++ itemss.flatten)).2) := by
  induction h with
  | nil =>
      intro tail page acc
      simp
  | cons hr hrest ih =>
      rename_i r items rs₂ itemss₂
      intro tail page acc
      rw [List.cons_append, fetchGo_cons_hasItems hr, ih]
      have harith : page + 1 + rs₂.length = page + (rs₂.length + 1) := by omega
      simp only [List.length_cons, List.flatten_cons, range_succ_map_mkRequest, harith,
        List.append_assoc, List.cons_append]

/-- C1: for every sequence of HTTP 200 responses in which each page's body
contains a non-empty `exceptions` array, the list `fetch_data` returns equals
the concatenation of those pages' arrays in request (page-number) order. -/
theorem fetchData_concat_pages {responses : List Response} {itemss : List (List Json)}
    (category : String) (count : Int) (access_token : String)
    (h : List.Forall₂ hasItems responses itemss) :
    (fetchData category count access_token responses).2 = Except.ok itemss.flatten := by
  unfold fetchData
  have h2 := fetchGo_append_hasItems h category count access_token [] 1 []
  rw [List.append_nil] at h2
  rw [h2]
  simp [fetchGo]

/-- Witness for C1 at the spec's example scenario. -/
theorem fetchData_concat_pages_witness :
    (fetchData "licensing" 1000 "tok"
      [⟨200, Json.obj [("exceptions", Json.arr [Json.num 1, Json.num 2])]⟩,
       ⟨200, Json.obj [("exceptions", Json.arr [Json.num 3])]⟩]).2 =
      Except.ok [Json.num 1, Json.num 2, Json.num 3] := by
  have h := @fetchData_concat_pages
    [⟨200, Json.obj [("exceptions", Json.arr [Json.num 1, Json.num 2])]⟩,
     ⟨200, Json.obj [("exceptions", Json.arr [Json.num 3])]⟩]
    [[Json.num 1, Json.num 2], [Json.num 3]]
    "licensing" 1000 "tok"
    (List.Forall₂.cons
      (show hasItems ⟨200, Json.obj [("exceptions", Json.arr [Json.num 1, Json.num 2])]⟩
          [Json.num 1, Json.num 2] from
        ⟨rfl, [("exceptions", Json.arr [Json.num 1, Json.num 2])], rfl, by decide, by decide⟩)
      (List.Forall₂.cons
        (show hasItems ⟨200, Json.obj [("exceptions", Json.arr [Json.num 3])]⟩
            [Json.num 3] from
          ⟨rfl, [("exceptions", Json.arr [Json.num 3])], rfl, by decide, by decide⟩)
        List.Forall₂.nil))
  simpa using h

/-- C2: pagination stops at the first 200 page whose body has an empty
`exceptions` array or lacks the field: the loop issues exactly the requests
for pages `1..k` (none for a later page number) and returns the records of the
earlier pages. -/
theorem fetchData_stops_at_empty_page {good : List Response} {itemss : List (List Json)}
    {r : Response} (category : String) (count : Int) (access_token : String)
    (rest : List Response)
    (hgood : List.Forall₂ hasItems good itemss) (hstop : stopPage r) :
    fetchData category count access_token (good ++ r :: rest) =
      ((List.range (good.length + 1)).map (fun i => mkRequest category count access_token (i + 1)),
       Except.ok itemss.flatten) := by
  unfold fetchData
  rw [fetchGo_append_hasItems hgood category count access_token (r :: rest) 1 [],
    fetchGo_cons_stopPage hstop]
  rw [List.range_succ, List.map_append]
  simp only [List.map_cons, List.map_nil, List.nil_append, List.append_nil,
    Prod.mk.injEq]
  refine ⟨?_, trivial⟩
  congr 1
  · apply List.map_congr_left
    intro i _
    congr 1
    omega
  · congr 2
    omega

/-- Witness for C2: one full page, then a page with an empty array. -/
theorem fetchData_stops_at_empty_page_witness :
    fetchData "licensing" 50 "tok"
      [⟨200, Json.obj [("exceptions", Json.arr [Json.num 7])]⟩,
       ⟨200, Json.obj [("exceptions", Json.arr [])]⟩,
       ⟨200, Json.obj [("exceptions", Json.arr [Json.num 9])]⟩] =
      ([mkRequest "licensing" 50 "tok" 1, mkRequest "licensing" 50 "tok" 2],
       Except.ok [Json.num 7]) := by
  have h := @fetchData_stops_at_empty_page
    [⟨200, Json.obj [("exceptions", Json.arr [Json.num 7])]⟩]
    [[Json.num 7]]
    ⟨200, Json.obj [("exceptions", Json.arr [])]⟩
    "licensing" 50 "tok" [⟨200, Json.obj [("exceptions", Json.arr [Json.num 9])]⟩]
    (List.Forall₂.cons
      (show hasItems ⟨200, Json.obj [("exceptions", Json.arr [Json.num 7])]⟩
          [Json.num 7] from
        ⟨rfl, [("exceptions", Json.arr [Json.num 7])], rfl, by decide, by decide⟩)
      List.Forall₂.nil)
    (show stopPage ⟨200, Json.obj [("exceptions", Json.arr [])]⟩ from
      ⟨rfl, [("exceptions", Json.arr [])], rfl, Or.inr (by decide)⟩)
  simpa [List.range_succ] using h

/-- C3: pagination stops at the first non-200 response without raising: the
loop issues exactly the requests for pages `1..k` and returns, as an ordinary
(partial) result, the records of the 200 pages strictly before it. -/
theorem fetchData_stops_at_non200 {good : List Response} {itemss : List (List Json)}
    {r : Response} (category : String) (count : Int) (access_token : String)
    (rest : List Response)
    (hgood : List.Forall₂ hasItems good itemss) (hbad : r.status ≠ 200) :
    fetchData category count access_token (good ++ r :: rest) =
      ((List.range (good.length + 1)).map (fun i => mkRequest category count access_token (i + 1)),
       Except.ok itemss.flatten) := by
  unfold fetchData
  rw [fetchGo_append_hasItems hgood category count access_token (r :: rest) 1 [],
    fetchGo_cons_non200 hbad]
  rw [List.range_succ, List.map_append]
  simp only [List.map_cons, List.map_nil, List.nil_append, List.append_nil,
    Prod.mk.injEq]
  refine ⟨?_, trivial⟩
  congr 1
  · apply List.map_congr_left
    intro i _
    congr 1
    omega
  · congr 2
    omega

/-- Witness for C3: two full pages, then a 403, then a page that is never
requested. -/
theorem fetchData_stops_at_non200_witness :
    fetchData "security" 10 "tok"
      [⟨200, Json.obj [("exceptions", Json.arr [Json.num 1])]⟩,
       ⟨200, Json.obj [("exceptions", Json.arr [Json.num 2])]⟩,
       ⟨403, Json.null⟩,
       ⟨200, Json.obj [("exceptions", Json.arr [Json.num 3])]⟩] =
      ([mkRequest "security" 10 "tok" 1, mkRequest "security" 10 "tok" 2,
        mkRequest "security" 10 "tok" 3],
       Except.ok [Json.num 1, Json.num 2]) := by
  have h := @fetchData_stops_at_non200
    [⟨200, Json.obj [("exceptions", Json.arr [Json.num 1])]⟩,
     ⟨200, Json.obj [("exceptions", Json.arr [Json.num 2])]⟩]
    [[Json.num 1], [Json.num 2]]
    ⟨403, Json.null⟩
    "security" 10 "tok" [⟨200, Json.obj [("exceptions", Json.arr [Json.num 3])]⟩]
    (List.Forall₂.cons
      (show hasItems ⟨200, Json.obj [("exceptions", Json.arr [Json.num 1])]⟩
          [Json.num 1] from
        ⟨rfl, [("exceptions", Json.arr [Json.num 1])], rfl, by decide, by decide⟩)
      (List.Forall₂.cons
        (show hasItems ⟨200, Json.obj [("exceptions", Json.arr [Json.num 2])]⟩
            [Json.num 2] from
          ⟨rfl, [("exceptions", Json.arr [Json.num 2])], rfl, by decide, by decide⟩)
        List.Forall₂.nil))
    (by decide)
  simpa [List.range_succ] using h

theorem fetchGo_requests_are_pages (category : String) (count : Int) (access_token : String) :
    ∀ (rs : List Response) (page : Nat) (acc : List Json),
    ∃ k, (fetchGo category count access_token rs page acc).1 =
      (List.range k).map (fun i => mkRequest category count access_token (page + i)) := by
  intro rs
  induction rs with
  | nil =>
      intro page acc
      exact ⟨0, by simp [fetchGo]⟩
  | cons r rest ih =>
      intro page acc
      by_cases h200 : r.status = 200
      · cases hguard : guardEval "exceptions" r.body with
        | error e => exact ⟨1, by simp [fetchGo, h200, hguard, List.range_succ]⟩
        | ok b =>
          cases b with
          | false => exact ⟨1, by simp [fetchGo, h200, hguard, List.range_succ]⟩
          | true =>
            cases hget : getItem "exceptions" r.body with
            | error e => exact ⟨1, by simp [fetchGo, h200, hguard, hget, List.range_succ]⟩
            | ok items =>
              by_cases hitems : truthy items = true
              · cases hiter : pyIter items with
                | error e => exact ⟨1, by simp [fetchGo, h200, hguard, hget, hitems, hiter, List.range_succ]⟩
                | ok elems =>
                  obtain ⟨k, hk⟩ := ih (page + 1) (acc ++ elems)
                  refine ⟨k + 1, ?_⟩
                  rw [range_succ_map_mkRequest]
                  simp [fetchGo, h200, hguard, hget, hitems, hiter, hk]
              · exact ⟨1, by simp [fetchGo, h200, hguard, hget, hitems, List.range_succ]⟩
      · exact ⟨1, by simp [fetchGo, h200, List.range_succ]⟩

/-- C8: every request `fetch_data` issues uses the URL built from the base
template with the category, the current 1-based page counter and the count
substituted in, and carries exactly the `accept: application/json` and
`authorization: Bearer <token>` headers; the requests are issued for pages
`1, 2, 3, ...` in order. -/
theorem fetchData_requests_shape (category : String) (count : Int) (access_token : String)
    (responses : List Response) :
    ∃ k, (fetchData category count access_token responses).1 =
      (List.range k).map (fun i =>
        ({ url := formatUrl category (i + 1) count,
           headers := [("accept", "application/json"),
                       ("authorization", "Bearer " ++ access_token)] } : Request)) := by
  obtain ⟨k, hk⟩ := fetchGo_requests_are_pages category count access_token responses 1 []
  refine ⟨k, ?_⟩
  unfold fetchData
  rw [hk]
  apply List.map_congr_left
  intro i _
  have h1 : 1 + i = i + 1 := Nat.add_comm 1 i
  simp [mkRequest, requestHeaders, h1]

/-- C10: a 200 response whose parsed body is falsy (null, empty object, empty
array, `false`, `0`, the empty string) ends the loop normally: the short
circuit of `data and 'exceptions' in data` returns the records accumulated so
far instead of raising. -/
theorem fetchData_falsy_body_stops {pre : List Response} {itemss : List (List Json)}
    {r : Response} (category : String) (count : Int) (access_token : String)
    (rest : List Response)
    (hpre : List.Forall₂ hasItems pre itemss)
    (h200 : r.status = 200) (hfalsy : truthy r.body = false) :
    fetchData category count access_token (pre ++ r :: rest) =
      ((List.range (pre.length + 1)).map (fun i => mkRequest category count access_token (i + 1)),
       Except.ok itemss.flatten) := by
  unfold fetchData
  rw [fetchGo_append_hasItems hpre category count access_token (r :: rest) 1 [],
    fetchGo_cons_falsy h200 hfalsy]
  rw [List.range_succ, List.map_append]
  simp only [List.map_cons, List.map_nil, List.nil_append, List.append_nil,
    Prod.mk.injEq]
  refine ⟨?_, trivial⟩
  congr 1
  · apply List.map_congr_left
    intro i _
    congr 1
    omega
  · congr 2
    omega

/-- Witness for C10: a full page, then a 200 response whose body is `null`. -/
theorem fetchData_falsy_body_stops_witness :
    fetchData "licensing" 1000 "tok"
      [⟨200, Json.obj [("exceptions", Json.arr [Json.num 5])]⟩, ⟨200, Json.null⟩] =
      ([mkRequest "licensing" 1000 "tok" 1, mkRequest "licensing" 1000 "tok" 2],
       Except.ok [Json.num 5]) := by
  have h := @fetchData_falsy_body_stops
    [⟨200, Json.obj [("exceptions", Json.arr [Json.num 5])]⟩]
    [[Json.num 5]]
    ⟨200, Json.null⟩
    "licensing" 1000 "tok" []
    (List.Forall₂.cons
      (show hasItems ⟨200, Json.obj [("exceptions", Json.arr [Json.num 5])]⟩
          [Json.num 5] from
        ⟨rfl, [("exceptions", Json.arr [Json.num 5])], rfl, by decide, by decide⟩)
      List.Forall₂.nil)
    rfl rfl
  simpa [List.range_succ] using h

/-! ## The JSON serializer and parser

`main` writes the ResultSet with `json.dump(results, json_file, indent=2)`.
`dumpV` reproduces that text: `indent=2` layout with the `(',', ': ')`
separators the `json` module uses whenever an indent is given.  String
escaping covers the quote, the backslash and the control characters (the
short escapes plus `\u00XX`), i.e. the escapes `json.dump` emits apart from
the pure style choice of `ensure_ascii` for characters above ASCII, which
does not change the parsed value.  `parseV`/`loads` model `json.loads` on
such texts (whitespace-insensitive, fuelled recursion). -/

/-- The opening brace character. -/
def lbrace : Char := Char.ofNat 123

/-- The closing brace character. -/
def rbrace : Char := Char.ofNat 125

/-- The indentation in front of a node at nesting level `ind` (`indent=2`). -/
def pad (ind : Nat) : List Char := List.replicate (2 * ind) ' '

/-- The character of a decimal digit. -/
def digitChar (n : Nat) : Char := Char.ofNat (48 + n)

/-- The character of a hexadecimal digit, lower case. -/
def hexDigitChar (n : Nat) : Char :=
  if n < 10 then Char.ofNat (48 + n) else Char.ofNat (87 + n)

/-- The two hexadecimal digits of a value below 256. -/
def hexByte (n : Nat) : List Char := [hexDigitChar (n / 16), hexDigitChar (n % 16)]

/-- The characters of the keyword `null`. -/
def kwNull : List Char := ['n', 'u', 'l', 'l']

/-- The characters of the keyword `true`. -/
def kwTrue : List Char := ['t', 'r', 'u', 'e']

/-- The characters of the keyword `false`. -/
def kwFalse : List Char := ['f', 'a', 'l', 's', 'e']

/-- The decimal digits of a natural number, most significant first. -/
def natDigits (n : Nat) : List Char :=
  if h : n < 10 then [digitChar n]
  else natDigits (n / 10) ++ [digitChar (n % 10)]
decreasing_by
  exact Nat.div_lt_self (by omega) (by omega)

/-- The serialized form of a JSON (integer) number. -/
def intDigits (n : Int) : List Char :=
  if n < 0 then '-' :: natDigits n.natAbs else natDigits n.natAbs

/-- How `json.dump` escapes one character inside a string literal. -/
def escChar (c : Char) : List Char :=
  if c = '"' then ['\\', '"']
  else if c = '\\' then ['\\', '\\']
  else if c = Char.ofNat 8 then ['\\', 'b']
  else if c = Char.ofNat 9 then ['\\', 't']
  else if c = Char.ofNat 10 then ['\\', 'n']
  else if c = Char.ofNat 12 then ['\\', 'f']
  else if c = Char.ofNat 13 then ['\\', 'r']
  else if c.toNat < 32 then '\\' :: 'u' :: '0' :: '0' :: hexByte c.toNat
  else [c]

/-- `escChar` over a whole string body. -/
def escString : List Char → List Char
  | [] => []
  | c :: cs => escChar c ++ escString cs

/-- The serialized form of a JSON string literal, quotes included. -/
def dumpStr (s : String) : List Char := '"' :: (escString s.data ++ ['"'])

mutual

/-- The text `json.dump(v, f, indent=2)` writes for `v` at nesting level
`ind`, as a character list. -/
def dumpV (ind : Nat) : Json → List Char
  | .null => kwNull
  | .bool true => kwTrue
  | .bool false => kwFalse
  | .num n => intDigits n
  | .str s => dumpStr s
  | .arr [] => ['[', ']']
  | .arr (x :: xs) =>
      '[' :: '\n' :: (pad (ind + 1) ++ dumpV (ind + 1) x ++ dumpArrTail (ind + 1) xs
        ++ '\n' :: (pad ind ++ [']']))
  | .obj [] => [lbrace, rbrace]
  | .obj ((k, v) :: kvs) =>
      lbrace :: '\n' :: (pad (ind + 1) ++ dumpStr k ++ ':' :: ' ' :: dumpV (ind + 1) v
        ++ dumpObjTail (ind + 1) kvs ++ '\n' :: (pad ind ++ [rbrace]))

/-- Second and later array elements: `,` newline, indentation, the element. -/
def dumpArrTail (ind : Nat) : List Json → List Char
  | [] => []
  | x :: xs => ',' :: '\n' :: (pad ind ++ dumpV ind x ++ dumpArrTail ind xs)

/-- Second and later object members. -/
def dumpObjTail (ind : Nat) : List (String × Json) → List Char
  | [] => []
  | (k, v) :: kvs =>
      ',' :: '\n' :: (pad ind ++ dumpStr k ++ ':' :: ' ' :: dumpV ind v ++ dumpObjTail ind kvs)

end

/-- The full text `json.dump(v, f, indent=2)` writes. -/
def dumps (v : Json) : String := String.mk (dumpV 0 v)

/-- JSON insignificant whitespace. -/
def isWsChar (c : Char) : Bool :=
  c = ' ' || c = '\n' || c = '\t' || c = Char.ofNat 13

/-- Drop leading insignificant whitespace. -/
def skipWs : List Char → List Char
  | [] => []
  | c :: cs => if isWsChar c then skipWs cs else c :: cs

/-- Decimal digit test on characters. -/
def isDigitChar (c : Char) : Bool := 48 ≤ c.toNat && c.toNat ≤ 57

/-- Consume a run of decimal digits, extending the accumulator. -/
def lexDigits : List Char → Nat → Nat × List Char
  | [], acc => (acc, [])
  | c :: cs, acc =>
      if isDigitChar c then lexDigits cs (10 * acc + (c.toNat - 48)) else (acc, c :: cs)

/-- The value of a hexadecimal digit character. -/
def hexVal (c : Char) : Option Nat :=
  if 48 ≤ c.toNat ∧ c.toNat ≤ 57 then some (c.toNat - 48)
  else if 97 ≤ c.toNat ∧ c.toNat ≤ 102 then some (c.toNat - 87)
  else if 65 ≤ c.toNat ∧ c.toNat ≤ 70 then some (c.toNat - 55)
  else none

/-- The character for a one-character escape code. -/
def unescape (e : Char) : Option Char :=
  if e = '"' then some '"'
  else if e = '\\' then some '\\'
  else if e = '/' then some '/'
  else if e = 'b' then some (Char.ofNat 8)
  else if e = 'f' then some (Char.ofNat 12)
  else if e = 'n' then some (Char.ofNat 10)
  else if e = 'r' then some (Char.ofNat 13)
  else if e = 't' then some (Char.ofNat 9)
  else none

/-- Parse the body of a string literal (after the opening quote), returning
the decoded characters and the input after the closing quote. -/
def parseStrBody : List Char → Option (List Char × List Char)
  | [] => none
  | c :: cs =>
      if c = '"' then some ([], cs)
      else if c = '\\' then
        match cs with
        | 'u' :: h1 :: h2 :: h3 :: h4 :: cs2 =>
            match hexVal h1, hexVal h2, hexVal h3, hexVal h4 with
            | some a, some b, some d, some e =>
                (parseStrBody cs2).map
                  (fun r => (Char.ofNat (((a * 16 + b) * 16 + d) * 16 + e) :: r.1, r.2))
            | _, _, _, _ => none
        | e :: cs2 =>
            match unescape e with
            | some c2 => (parseStrBody cs2).map (fun r => (c2 :: r.1, r.2))
            | none => none
        | [] => none
      else (parseStrBody cs).map (fun r => (c :: r.1, r.2))

mutual

/-- Parse one JSON value (with leading whitespace), fuelled. -/
def parseV : Nat → List Char → Option (Json × List Char)
  | 0, _ => none
  | fuel + 1, cs =>
      match skipWs cs with
      | [] => none
      | c :: cs2 =>
          if isDigitChar c then
            let r := lexDigits cs2 (c.toNat - 48)
            some (Json.num (r.1 : Int), r.2)
          else if c = '-' then
            match cs2 with
            | d :: cs3 =>
                if isDigitChar d then
                  let r := lexDigits cs3 (d.toNat - 48)
                  some (Json.num (-(r.1 : Int)), r.2)
                else none
            | [] => none
          else if c = '"' then
            (parseStrBody cs2).map (fun r => (Json.str (String.mk r.1), r.2))
          else if c = '[' then
            match skipWs cs2 with
            | [] => none
            | d :: cs3 =>
                if d = ']' then some (Json.arr [], cs3)
                else
                  match parseV fuel (d :: cs3) with
                  | some (v, r1) =>
                      match parseArrTail fuel r1 with
                      | some (vs, r2) => some (Json.arr (v :: vs), r2)
                      | none => none
                  | none => none
          else if c = lbrace then
            match skipWs cs2 with
            | [] => none
            | d :: cs3 =>
                if d = rbrace then some (Json.obj [], cs3)
                else if d = '"' then
                  match parseStrBody cs3 with
                  | some (k, r1) =>
                      match skipWs r1 with
                      | ':' :: r2 =>
                          match parseV fuel r2 with
                          | some (v, r3) =>
                              match parseObjTail fuel r3 with
                              | some (kvs, r4) =>
                                  some (Json.obj ((String.mk k, v) :: kvs), r4)
                              | none => none
                          | none => none
                      | _ => none
                  | none => none
                else none
          else if c = 't' then
            match cs2 with
            | 'r' :: 'u' :: 'e' :: cs3 => some (Json.bool true, cs3)
            | _ => none
          else if c = 'f' then
            match cs2 with
            | 'a' :: 'l' :: 's' :: 'e' :: cs3 => some (Json.bool false, cs3)
            | _ => none
          else if c = 'n' then
            match cs2 with
            | 'u' :: 'l' :: 'l' :: cs3 => some (Json.null, cs3)
            | _ => none
          else none

/-- Parse `, value , value ... ]` after the first array element. -/
def parseArrTail : Nat → List Char → Option (List Json × List Char)
  | 0, _ => none
  | fuel + 1, cs =>
      match skipWs cs with
      | [] => none
      | c :: cs2 =>
          if c = ']' then some ([], cs2)
          else if c = ',' then
            match parseV fuel cs2 with
            | some (v, r1) =>
                match parseArrTail fuel r1 with
                | some (vs, r2) => some (v :: vs, r2)
                | none => none
            | none => none
          else none

/-- Parse `, "key": value ... }` after the first object member. -/
def parseObjTail : Nat → List Char → Option (List (String × Json) × List Char)
  | 0, _ => none
  | fuel + 1, cs =>
      match skipWs cs with
      | [] => none
      | c :: cs2 =>
          if c = rbrace then some ([], cs2)
          else if c = ',' then
            match skipWs cs2 with
            | '"' :: cs3 =>
                match parseStrBody cs3 with
                | some (k, r1) =>
                    match skipWs r1 with
                    | ':' :: r2 =>
                        match parseV fuel r2 with
                        | some (v, r3) =>
                            match parseObjTail fuel r3 with
                            | some (kvs, r4) => some ((String.mk k, v) :: kvs, r4)
                            | none => none
                        | none => none
                    | _ => none
                | none => none
            | _ => none
          else none

end

/-- `json.loads`: parse a complete JSON document, allowing trailing
whitespace only. -/
def loads (s : String) : Option Json :=
  match parseV (s.length + 1) s.data with
  | some (v, rest) => if (skipWs rest).isEmpty then some v else none
  | none => none

/-! ### Helper lemmas for the round trip -/

/-- All characters of the list are JSON whitespace. -/
def wsList (ws : List Char) : Prop := ∀ c ∈ ws, isWsChar c = true

theorem skipWs_append {ws : List Char} (h : wsList ws) (cs : List Char) :
    skipWs (ws ++ cs) = skipWs cs := by
  induction ws with
  | nil => rfl
  | cons c ws ih =>
      have hc : isWsChar c = true := h c (by simp)
      have hws : wsList ws := fun d hd => h d (by simp [hd])
      simp [skipWs, hc, ih hws]

theorem skipWs_not_ws {c : Char} (h : isWsChar c = false) (cs : List Char) :
    skipWs (c :: cs) = c :: cs := by
  simp [skipWs, h]

theorem ws_char_cases {c : Char} (h : isWsChar c = true) :
    ((c = ' ' ∨ c = '\n') ∨ c = '\t') ∨ c = Char.ofNat 13 := by
  simpa [isWsChar, Bool.or_eq_true, decide_eq_true_eq, or_assoc] using
    (by simpa [isWsChar] using h : ((c = ' ' || c = '\n') || c = '\t') || decide (c = Char.ofNat 13) = true)

theorem digit_not_ws {c : Char} (h : isDigitChar c = true) : isWsChar c = false := by
  cases hww : isWsChar c with
  | false => rfl
  | true =>
      rcases ws_char_cases hww with ((rfl | rfl) | rfl) | rfl <;> exact absurd h (by decide)

theorem ws_not_digit {c : Char} (h : isWsChar c = true) : isDigitChar c = false := by
  cases hd : isDigitChar c with
  | false => rfl
  | true => rw [digit_not_ws hd] at h; exact absurd h (by simp)

theorem pad_wsList (ind : Nat) : wsList (pad ind) := by
  intro c hc
  have := List.eq_of_mem_replicate hc
  subst this
  decide

theorem nlPad_wsList (ind : Nat) : wsList ('\n' :: pad ind) := by
  intro c hc
  rcases hc with _ | hc
  · decide
  · exact pad_wsList ind c (by assumption)

theorem parseV_ws {ws : List Char} (h : wsList ws) (fuel : Nat) (cs : List Char) :
    parseV fuel (ws ++ cs) = parseV fuel cs := by
  cases fuel with
  | zero => rfl
  | succ f => simp only [parseV, skipWs_append h]

theorem toNat_ofNat_small {n : Nat} (h : n < 55296) : (Char.ofNat n).toNat = n := by
  have hv : n.isValidChar := Or.inl h
  rw [Char.ofNat, dif_pos hv]
  simp [Char.ofNatAux, Char.toNat, UInt32.toNat]

theorem isDigitChar_digitChar {n : Nat} (h : n < 10) : isDigitChar (digitChar n) = true := by
  have := toNat_ofNat_small (show 48 + n < 55296 by omega)
  simp [isDigitChar, digitChar, this]
  omega

theorem toNat_digitChar {n : Nat} (h : n < 10) : (digitChar n).toNat = 48 + n := by
  exact toNat_ofNat_small (by omega)

theorem stringMk_data (s : String) : String.mk s.data = s := by
  cases s
  rfl

/-! ### One-step reduction lemmas for the parser -/

theorem parseV_step_digit (f : Nat) {d : Char} (cs : List Char) (hd : isDigitChar d = true) :
    parseV (f + 1) (d :: cs) =
      some (Json.num ((lexDigits cs (d.toNat - 48)).1 : Int), (lexDigits cs (d.toNat - 48)).2) := by
  have hw : isWsChar d = false := digit_not_ws hd
  simp only [parseV, skipWs, hw, Bool.false_eq_true, if_false, hd, if_true]

theorem parseV_step_neg (f : Nat) {d : Char} (cs : List Char) (hd : isDigitChar d = true) :
    parseV (f + 1) ('-' :: d :: cs) =
      some (Json.num (-((lexDigits cs (d.toNat - 48)).1 : Int)), (lexDigits cs (d.toNat - 48)).2) := by
  simp only [parseV, skipWs, (by decide : isWsChar '-' = false), Bool.false_eq_true, if_false,
    (by decide : isDigitChar '-' = false), if_true, hd]

theorem parseV_step_str (f : Nat) (cs : List Char) :
    parseV (f + 1) ('"' :: cs) =
      (parseStrBody cs).map (fun r => (Json.str (String.mk r.1), r.2)) := rfl

theorem parseV_step_arr (f : Nat) {cs cs3 : List Char} {d : Char} {v : Json} {vs : List Json}
    {r1 r2 : List Char}
    (h1 : skipWs cs = d :: cs3) (h2 : d ≠ ']')
    (h3 : parseV f (d :: cs3) = some (v, r1)) (h4 : parseArrTail f r1 = some (vs, r2)) :
    parseV (f + 1) ('[' :: cs) = some (Json.arr (v :: vs), r2) := by
  simp only [parseV, skipWs, (by decide : isWsChar '[' = false), Bool.false_eq_true, if_false,
    (by decide : isDigitChar '[' = false), (by decide : ('[' = '-') = False),
    (by decide : ('[' = '"') = False), if_true,
    (by decide : ('[' = '[') = True), h1, h2, h3, h4]

theorem parseV_step_obj (f : Nat) {cs cs3 : List Char} {k : List Char} {v : Json}
    {kvs : List (String × Json)} {r1 r2 r3 r4 : List Char}
    (h1 : skipWs cs = '"' :: cs3)
    (h2 : parseStrBody cs3 = some (k, r1)) (h3 : skipWs r1 = ':' :: r2)
    (h4 : parseV f r2 = some (v, r3)) (h5 : parseObjTail f r3 = some (kvs, r4)) :
    parseV (f + 1) (lbrace :: cs) = some (Json.obj ((String.mk k, v) :: kvs), r4) := by
  simp only [parseV, skipWs, (by decide : isWsChar lbrace = false), Bool.false_eq_true, if_false,
    (by decide : isDigitChar lbrace = false), (by decide : (lbrace = '-') = False),
    (by decide : (lbrace = '"') = False), (by decide : (lbrace = '[') = False),
    (by decide : (lbrace = lbrace) = True), if_true, h1,
    (by decide : ('"' = rbrace) = False), (by decide : ('"' = '"') = True),
    h2, h3, h4, h5]

theorem parseArrTail_step_nil (f : Nat) {cs cs2 : List Char} (h1 : skipWs cs = ']' :: cs2) :
    parseArrTail (f + 1) cs = some ([], cs2) := by
  simp only [parseArrTail, h1, (by decide : (']' = ']') = True), if_true]

theorem parseArrTail_step_cons (f : Nat) {cs cs2 r1 r2 : List Char} {v : Json} {vs : List Json}
    (h1 : skipWs cs = ',' :: cs2) (h2 : parseV f cs2 = some (v, r1))
    (h3 : parseArrTail f r1 = some (vs, r2)) :
    parseArrTail (f + 1) cs = some (v :: vs, r2) := by
  simp only [parseArrTail, h1, (by decide : (',' = ']') = False), if_false,
    (by decide : (',' = ',') = True), if_true, h2, h3]

theorem parseObjTail_step_nil (f : Nat) {cs cs2 : List Char} (h1 : skipWs cs = rbrace :: cs2) :
    parseObjTail (f + 1) cs = some ([], cs2) := by
  simp only [parseObjTail, h1, (by decide : (rbrace = rbrace) = True), if_true]

theorem parseObjTail_step_cons (f : Nat) {cs cs2 cs3 r1 r2 r3 r4 : List Char} {k : List Char}
    {v : Json} {kvs : List (String × Json)}
    (h1 : skipWs cs = ',' :: cs2) (h2 : skipWs cs2 = '"' :: cs3)
    (h3 : parseStrBody cs3 = some (k, r1)) (h4 : skipWs r1 = ':' :: r2)
    (h5 : parseV f r2 = some (v, r3)) (h6 : parseObjTail f r3 = some (kvs, r4)) :
    parseObjTail (f + 1) cs = some ((String.mk k, v) :: kvs, r4) := by
  simp only [parseObjTail, h1, (by decide : (',' = rbrace) = False), if_false,
    (by decide : (',' = ',') = True), if_true, h2, h3, h4, h5, h6]

/-! ### Decimal round trip -/

/-- The input does not continue with a digit (so a number token ends there). -/
def noLeadDigit : List Char → Prop
  | [] => True
  | c :: _ => isDigitChar c = false

theorem lexDigits_stop {rest : List Char} (h : noLeadDigit rest) (acc : Nat) :
    lexDigits rest acc = (acc, rest) := by
  cases rest with
  | nil => rfl
  | cons c cs => simp [lexDigits, show isDigitChar c = false from h]

theorem natDigits_head (n : Nat) :
    ∃ d ds, natDigits n = d :: ds ∧ isDigitChar d = true := by
  induction n using Nat.strong_induction_on with
  | _ n ih =>
      rw [natDigits]
      by_cases h : n < 10
      · exact ⟨digitChar n, [], by simp [h], isDigitChar_digitChar h⟩
      · obtain ⟨d, ds, hd, hdig⟩ := ih (n / 10) (Nat.div_lt_self (by omega) (by omega))
        exact ⟨d, ds ++ [digitChar (n % 10)], by simp [h, hd], hdig⟩

theorem lexDigits_natDigits (n : Nat) : ∀ (acc : Nat) (rest : List Char),
    lexDigits (natDigits n ++ rest) acc =
      lexDigits rest (acc * 10 ^ (natDigits n).length + n) := by
  induction n using Nat.strong_induction_on with
  | _ n ih =>
      intro acc rest
      rw [natDigits]
      by_cases h : n < 10
      · have htn := toNat_digitChar h
        simp only [dif_pos h, List.cons_append, List.nil_append, List.length_cons,
          List.length_nil, lexDigits, isDigitChar_digitChar h, if_true, htn]
        congr 1
        simp [pow_one]
        omega
      · obtain ⟨d, ds, hd, hdig⟩ := natDigits_head (n % 10)
        have hlen : (natDigits (n % 10)).length = 1 := by
          rw [natDigits]
          simp [Nat.mod_lt n (by omega : 0 < 10)]
        simp only [dif_neg h, List.append_assoc, List.length_append, List.length_cons,
          List.length_nil]
        rw [ih (n / 10) (Nat.div_lt_self (by omega) (by omega))]
        have h10 : n % 10 < 10 := Nat.mod_lt n (by omega)
        have htn := toNat_digitChar h10
        simp only [List.singleton_append, lexDigits, isDigitChar_digitChar h10, if_true, htn]
        congr 1
        have hps : 10 ^ ((natDigits (n / 10)).length + 1) =
            10 ^ (natDigits (n / 10)).length * 10 := pow_succ 10 _
        calc 10 * (acc * 10 ^ (natDigits (n / 10)).length + n / 10) + (48 + n % 10 - 48)
            = acc * (10 ^ (natDigits (n / 10)).length * 10) + (10 * (n / 10) + n % 10) := by ring_nf; omega
          _ = acc * 10 ^ ((natDigits (n / 10)).length + 1) + n := by
              rw [hps]
              omega

/-! ### String-literal round trip -/

theorem hexVal_hexDigitChar {m : Nat} (h : m < 16) : hexVal (hexDigitChar m) = some m := by
  by_cases h10 : m < 10
  · have htn : (Char.ofNat (48 + m)).toNat = 48 + m := toNat_ofNat_small (by omega)
    rw [hexDigitChar, if_pos h10, hexVal, htn, if_pos (by omega)]
    congr 1
    omega
  · have htn : (Char.ofNat (87 + m)).toNat = 87 + m := toNat_ofNat_small (by omega)
    rw [hexDigitChar, if_neg h10, hexVal, htn, if_neg (by omega), if_pos (by omega)]
    congr 1
    omega

theorem parseStrBody_escChar (c : Char) (tail : List Char) :
    parseStrBody (escChar c ++ tail) = (parseStrBody tail).map (fun r => (c :: r.1, r.2)) := by
  by_cases h1 : c = '"'
  · subst h1; rfl
  by_cases h2 : c = '\\'
  · subst h2; rfl
  by_cases h3 : c = Char.ofNat 8
  · subst h3; rfl
  by_cases h4 : c = Char.ofNat 9
  · subst h4; rfl
  by_cases h5 : c = Char.ofNat 10
  · subst h5; rfl
  by_cases h6 : c = Char.ofNat 12
  · subst h6; rfl
  by_cases h7 : c = Char.ofNat 13
  · subst h7; rfl
  by_cases hc : c.toNat < 32
  · rw [escChar, if_neg h1, if_neg h2, if_neg h3, if_neg h4, if_neg h5, if_neg h6, if_neg h7,
      if_pos hc, hexByte]
    have hv1 := hexVal_hexDigitChar (show c.toNat / 16 < 16 by omega)
    have hv2 := hexVal_hexDigitChar (show c.toNat % 16 < 16 by omega)
    simp only [List.cons_append, List.nil_append, parseStrBody]
    simp only [(by decide : ('\\' = '"') = False), if_false, (by decide : ('\\' = '\\') = True),
      if_true, hv1, hv2, (by decide : hexVal '0' = some 0)]
    have harith : ((0 * 16 + 0) * 16 + c.toNat / 16) * 16 + c.toNat % 16 = c.toNat := by omega
    rw [harith, Char.ofNat_toNat]
    rfl
  · rw [escChar, if_neg h1, if_neg h2, if_neg h3, if_neg h4, if_neg h5, if_neg h6, if_neg h7,
      if_neg hc]
    rw [List.singleton_append, parseStrBody.eq_def]
    simp only [if_neg h1, if_neg h2]

theorem parseStrBody_escString (cs rest : List Char) :
    parseStrBody (escString cs ++ '"' :: rest) = some (cs, rest) := by
  induction cs with
  | nil =>
      rw [escString, List.nil_append, parseStrBody.eq_def]
      simp
  | cons c cs ih =>
      rw [escString, List.append_assoc, parseStrBody_escChar, ih]
      rfl

/-! ### Fuel accounting -/

mutual

/-- Node count of a JSON value, the fuel the parser needs. -/
def jsizeV : Json → Nat
  | .arr xs => 1 + jsizeL xs
  | .obj kvs => 1 + jsizeO kvs
  | _ => 1

def jsizeL : List Json → Nat
  | [] => 1
  | x :: xs => 1 + jsizeV x + jsizeL xs

def jsizeO : List (String × Json) → Nat
  | [] => 1
  | (_, v) :: kvs => 1 + jsizeV v + jsizeO kvs

end

theorem jsizeV_pos (v : Json) : 1 ≤ jsizeV v := by
  cases v <;> simp [jsizeV]

theorem jsizeL_pos (xs : List Json) : 1 ≤ jsizeL xs := by
  cases xs <;> simp [jsizeL] <;> omega

theorem jsizeO_pos (kvs : List (String × Json)) : 1 ≤ jsizeO kvs := by
  cases kvs with
  | nil => simp [jsizeO]
  | cons kv kvs =>
      obtain ⟨k, v⟩ := kv
      simp [jsizeO]
      omega

theorem natDigits_ne_nil (n : Nat) : natDigits n ≠ [] := by
  obtain ⟨d, ds, hd, _⟩ := natDigits_head n
  simp [hd]

theorem intDigits_length_pos (n : Int) : 1 ≤ (intDigits n).length := by
  rw [intDigits]
  by_cases h : n < 0
  · simp [h]
  · simp [h]
    exact List.length_pos.mpr (natDigits_ne_nil _)

mutual

theorem jsizeV_le_length : ∀ (v : Json) (ind : Nat), jsizeV v ≤ (dumpV ind v).length
  | .null, ind => by simp [jsizeV, dumpV, kwNull]
  | .bool b, ind => by cases b <;> simp [jsizeV, dumpV, kwTrue, kwFalse]
  | .num n, ind => by
      have := intDigits_length_pos n
      simp only [jsizeV, dumpV]
      omega
  | .str s, ind => by simp [jsizeV, dumpV, dumpStr]
  | .arr [], ind => by simp [jsizeV, jsizeL, dumpV]
  | .arr (x :: xs), ind => by
      have h1 := jsizeV_le_length x (ind + 1)
      have h2 := jsizeL_le_length xs (ind + 1)
      simp only [jsizeV, jsizeL, dumpV, List.length_cons, List.length_append]
      omega
  | .obj [], ind => by simp [jsizeV, jsizeO, dumpV]
  | .obj ((k, v) :: kvs), ind => by
      have h1 := jsizeV_le_length v (ind + 1)
      have h2 := jsizeO_le_length kvs (ind + 1)
      simp only [jsizeV, jsizeO, dumpV, List.length_cons, List.length_append]
      omega

theorem jsizeL_le_length : ∀ (xs : List Json) (ind : Nat),
    jsizeL xs ≤ (dumpArrTail ind xs).length + 1
  | [], ind => by simp [jsizeL, dumpArrTail]
  | x :: xs, ind => by
      have h1 := jsizeV_le_length x ind
      have h2 := jsizeL_le_length xs ind
      simp only [jsizeL, dumpArrTail, List.length_cons, List.length_append]
      omega

theorem jsizeO_le_length : ∀ (kvs : List (String × Json)) (ind : Nat),
    jsizeO kvs ≤ (dumpObjTail ind kvs).length + 1
  | [], ind => by simp [jsizeO, dumpObjTail]
  | (k, v) :: kvs, ind => by
      have h1 := jsizeV_le_length v ind
      have h2 := jsizeO_le_length kvs ind
      simp only [jsizeO, dumpObjTail, List.length_cons, List.length_append]
      omega

end

/-- The characters a serialized JSON value can start with. -/
def isValueStart (c : Char) : Bool :=
  isDigitChar c || c = '-' || c = '"' || c = '[' || c = lbrace ||
    c = 't' || c = 'f' || c = 'n'

theorem valueStart_not_ws {c : Char} (h : isValueStart c = true) : isWsChar c = false := by
  cases hw : isWsChar c with
  | false => rfl
  | true =>
      rcases ws_char_cases hw with ((rfl | rfl) | rfl) | rfl <;> exact absurd h (by decide)

theorem valueStart_ne_rbracket {c : Char} (h : isValueStart c = true) : c ≠ ']' := by
  intro heq
  subst heq
  exact absurd h (by decide)

theorem dumpV_head (v : Json) (ind : Nat) :
    ∃ c cs, dumpV ind v = c :: cs ∧ isValueStart c = true := by
  cases v with
  | null => exact ⟨'n', _, by rw [dumpV, kwNull], by decide⟩
  | bool b =>
      cases b with
      | false => exact ⟨'f', _, by rw [dumpV, kwFalse], by decide⟩
      | true => exact ⟨'t', _, by rw [dumpV, kwTrue], by decide⟩
  | num n =>
      by_cases hn : n < 0
      · exact ⟨'-', natDigits n.natAbs, by rw [dumpV, intDigits, if_pos hn], by decide⟩
      · obtain ⟨d, ds, hd, hdig⟩ := natDigits_head n.natAbs
        exact ⟨d, ds, by rw [dumpV, intDigits, if_neg hn, hd],
          by simp [isValueStart, hdig]⟩
  | str s => exact ⟨'"', _, by rw [dumpV, dumpStr], by decide⟩
  | arr xs =>
      cases xs with
      | nil => exact ⟨'[', _, by rw [dumpV], by decide⟩
      | cons y ys => exact ⟨'[', _, by rw [dumpV], by decide⟩
  | obj kvs =>
      cases kvs with
      | nil => exact ⟨lbrace, _, by rw [dumpV], by decide⟩
      | cons kv kvs =>
          obtain ⟨k, v⟩ := kv
          exact ⟨lbrace, _, by rw [dumpV], by decide⟩

theorem noLeadDigit_arrTail (ind : Nat) (xs : List Json) {ws : List Char} (rest : List Char)
    (hws : wsList ws) :
    noLeadDigit (dumpArrTail ind xs ++ (ws ++ (']' :: rest))) := by
  cases xs with
  | nil =>
      rw [dumpArrTail, List.nil_append]
      cases ws with
      | nil => exact (by decide : isDigitChar ']' = false)
      | cons w ws2 => exact ws_not_digit (hws w (by simp))
  | cons y ys =>
      rw [dumpArrTail]
      exact (by decide : isDigitChar ',' = false)

theorem noLeadDigit_objTail (ind : Nat) (kvs : List (String × Json)) {ws : List Char}
    (rest : List Char) (hws : wsList ws) :
    noLeadDigit (dumpObjTail ind kvs ++ (ws ++ (rbrace :: rest))) := by
  cases kvs with
  | nil =>
      rw [dumpObjTail, List.nil_append]
      cases ws with
      | nil => exact (by decide : isDigitChar rbrace = false)
      | cons w ws2 => exact ws_not_digit (hws w (by simp))
  | cons kv kvs =>
      obtain ⟨k, v⟩ := kv
      rw [dumpObjTail]
      exact (by decide : isDigitChar ',' = false)

theorem parseV_dumpV_mutual : ∀ fuel : Nat,
    (∀ (v : Json) (ind : Nat) (rest : List Char), jsizeV v ≤ fuel → noLeadDigit rest →
      parseV fuel (dumpV ind v ++ rest) = some (v, rest)) ∧
    (∀ (xs : List Json) (ind : Nat) (ws rest : List Char), jsizeL xs ≤ fuel → wsList ws →
      parseArrTail fuel (dumpArrTail ind xs ++ (ws ++ (']' :: rest))) = some (xs, rest)) ∧
    (∀ (kvs : List (String × Json)) (ind : Nat) (ws rest : List Char), jsizeO kvs ≤ fuel →
      wsList ws →
      parseObjTail fuel (dumpObjTail ind kvs ++ (ws ++ (rbrace :: rest))) = some (kvs, rest)) := by
  intro fuel
  induction fuel using Nat.strong_induction_on with
  | _ fuel ih =>
  refine ⟨?_, ?_, ?_⟩
  · intro v ind rest hsize hrest
    cases fuel with
    | zero => exact absurd hsize (by have := jsizeV_pos v; omega)
    | succ f =>
    obtain ⟨ih1, ih2, ih3⟩ := ih f (Nat.lt_succ_self f)
    cases v with
    | null =>
        rw [show dumpV ind Json.null = kwNull from by rw [dumpV]]
        rfl
    | bool b =>
        cases b with
        | false =>
            rw [show dumpV ind (Json.bool false) = kwFalse from by rw [dumpV]]
            rfl
        | true =>
            rw [show dumpV ind (Json.bool true) = kwTrue from by rw [dumpV]]
            rfl
    | num n =>
        by_cases hn : n < 0
        · obtain ⟨d, ds, hA, hdig⟩ := natDigits_head n.natAbs
          have hdump : dumpV ind (Json.num n) ++ rest = '-' :: d :: (ds ++ rest) := by
            rw [dumpV, intDigits, if_pos hn, hA]
            simp
          rw [hdump, parseV_step_neg f _ hdig]
          have h1 := lexDigits_natDigits n.natAbs 0 rest
          rw [hA] at h1
          simp only [List.cons_append, List.append_eq, lexDigits, hdig, if_true, Nat.mul_zero,
            Nat.zero_add, Nat.zero_mul, Nat.add_zero, zero_mul, zero_add, mul_zero] at h1
          rw [lexDigits_stop hrest] at h1
          rw [h1]
          have hneg : -((n.natAbs : Nat) : Int) = n := by omega
          rw [hneg]
        · obtain ⟨d, ds, hA, hdig⟩ := natDigits_head n.natAbs
          have hdump : dumpV ind (Json.num n) ++ rest = d :: (ds ++ rest) := by
            rw [dumpV, intDigits, if_neg hn, hA]
            simp
          rw [hdump, parseV_step_digit f _ hdig]
          have h1 := lexDigits_natDigits n.natAbs 0 rest
          rw [hA] at h1
          simp only [List.cons_append, List.append_eq, lexDigits, hdig, if_true, Nat.mul_zero,
            Nat.zero_add, Nat.zero_mul, Nat.add_zero, zero_mul, zero_add, mul_zero] at h1
          rw [lexDigits_stop hrest] at h1
          rw [h1]
          have hpos : ((n.natAbs : Nat) : Int) = n := by omega
          rw [hpos]
    | str s =>
        have hdump : dumpV ind (Json.str s) ++ rest = '"' :: (escString s.data ++ ('"' :: rest)) := by
          rw [dumpV, dumpStr]
          simp
        rw [hdump, parseV_step_str, parseStrBody_escString]
        simp [stringMk_data]
    | arr xs =>
        cases xs with
        | nil =>
            rw [show dumpV ind (Json.arr []) = ['[', ']'] from by rw [dumpV]]
            rfl
        | cons x xs =>
            obtain ⟨c0, cs0, hx, hxs⟩ := dumpV_head x (ind + 1)
            have hsz : jsizeV x ≤ f ∧ jsizeL xs ≤ f := by
              have hp1 := jsizeV_pos x
              have hp2 := jsizeL_pos xs
              simp only [jsizeV, jsizeL] at hsize
              omega
            have harr : dumpV ind (Json.arr (x :: xs)) ++ rest =
                '[' :: (('\n' :: pad (ind + 1)) ++ (dumpV (ind + 1) x ++
                  (dumpArrTail (ind + 1) xs ++ (('\n' :: pad ind) ++ (']' :: rest))))) := by
              rw [dumpV]
              simp [List.append_assoc]
            rw [harr]
            have h1 : skipWs (('\n' :: pad (ind + 1)) ++ (dumpV (ind + 1) x ++
                (dumpArrTail (ind + 1) xs ++ (('\n' :: pad ind) ++ (']' :: rest))))) =
                c0 :: (cs0 ++ (dumpArrTail (ind + 1) xs ++ (('\n' :: pad ind) ++ (']' :: rest)))) := by
              rw [skipWs_append (nlPad_wsList (ind + 1)), hx, List.cons_append,
                skipWs_not_ws (valueStart_not_ws hxs)]
            have h3 : parseV f (c0 :: (cs0 ++ (dumpArrTail (ind + 1) xs ++
                (('\n' :: pad ind) ++ (']' :: rest))))) =
                some (x, dumpArrTail (ind + 1) xs ++ (('\n' :: pad ind) ++ (']' :: rest))) := by
              rw [← List.cons_append, ← hx]
              exact ih1 x (ind + 1) _ hsz.1 (noLeadDigit_arrTail (ind + 1) xs rest (nlPad_wsList ind))
            have h4 : parseArrTail f (dumpArrTail (ind + 1) xs ++
                (('\n' :: pad ind) ++ (']' :: rest))) = some (xs, rest) :=
              ih2 xs (ind + 1) ('\n' :: pad ind) rest hsz.2 (nlPad_wsList ind)
            exact parseV_step_arr f h1 (valueStart_ne_rbracket hxs) h3 h4
    | obj kvs =>
        cases kvs with
        | nil =>
            rw [show dumpV ind (Json.obj []) = [lbrace, rbrace] from by rw [dumpV]]
            rfl
        | cons kv kvs =>
            obtain ⟨k, v⟩ := kv
            have hsz : jsizeV v ≤ f ∧ jsizeO kvs ≤ f := by
              have hp1 := jsizeV_pos v
              have hp2 := jsizeO_pos kvs
              simp only [jsizeV, jsizeO] at hsize
              omega
            have hobj : dumpV ind (Json.obj ((k, v) :: kvs)) ++ rest =
                lbrace :: (('\n' :: pad (ind + 1)) ++ ('"' :: (escString k.data ++
                  ('"' :: (':' :: (' ' :: (dumpV (ind + 1) v ++
                    (dumpObjTail (ind + 1) kvs ++ (('\n' :: pad ind) ++ (rbrace :: rest)))))))))) := by
              rw [dumpV, dumpStr]
              simp [List.append_assoc]
            rw [hobj]
            have h1 : skipWs (('\n' :: pad (ind + 1)) ++ ('"' :: (escString k.data ++
                ('"' :: (':' :: (' ' :: (dumpV (ind + 1) v ++
                  (dumpObjTail (ind + 1) kvs ++ (('\n' :: pad ind) ++ (rbrace :: rest)))))))))) =
                '"' :: (escString k.data ++
                ('"' :: (':' :: (' ' :: (dumpV (ind + 1) v ++
                  (dumpObjTail (ind + 1) kvs ++ (('\n' :: pad ind) ++ (rbrace :: rest)))))))) := by
              rw [skipWs_append (nlPad_wsList (ind + 1)), skipWs_not_ws (by decide)]
            have h2 : parseStrBody (escString k.data ++
                ('"' :: (':' :: (' ' :: (dumpV (ind + 1) v ++
                  (dumpObjTail (ind + 1) kvs ++ (('\n' :: pad ind) ++ (rbrace :: rest)))))))) =
                some (k.data, ':' :: (' ' :: (dumpV (ind + 1) v ++
                  (dumpObjTail (ind + 1) kvs ++ (('\n' :: pad ind) ++ (rbrace :: rest)))))) :=
              parseStrBody_escString k.data _
            have h3 : skipWs (':' :: (' ' :: (dumpV (ind + 1) v ++
                (dumpObjTail (ind + 1) kvs ++ (('\n' :: pad ind) ++ (rbrace :: rest)))))) =
                ':' :: (' ' :: (dumpV (ind + 1) v ++
                (dumpObjTail (ind + 1) kvs ++ (('\n' :: pad ind) ++ (rbrace :: rest))))) :=
              skipWs_not_ws (by decide) _
            have h4 : parseV f (' ' :: (dumpV (ind + 1) v ++
                (dumpObjTail (ind + 1) kvs ++ (('\n' :: pad ind) ++ (rbrace :: rest))))) =
                some (v, dumpObjTail (ind + 1) kvs ++ (('\n' :: pad ind) ++ (rbrace :: rest))) := by
              rw [show (' ' :: (dumpV (ind + 1) v ++
                  (dumpObjTail (ind + 1) kvs ++ (('\n' :: pad ind) ++ (rbrace :: rest))))) =
                  [' '] ++ (dumpV (ind + 1) v ++
                  (dumpObjTail (ind + 1) kvs ++ (('\n' :: pad ind) ++ (rbrace :: rest)))) from rfl]
              rw [parseV_ws (by intro c hc; simp at hc; subst hc; decide)]
              exact ih1 v (ind + 1) _ hsz.1
                (noLeadDigit_objTail (ind + 1) kvs rest (nlPad_wsList ind))
            have h5 : parseObjTail f (dumpObjTail (ind + 1) kvs ++
                (('\n' :: pad ind) ++ (rbrace :: rest))) = some (kvs, rest) :=
              ih3 kvs (ind + 1) ('\n' :: pad ind) rest hsz.2 (nlPad_wsList ind)
            have := parseV_step_obj f h1 h2 h3 h4 h5
            rw [this, stringMk_data]
  · intro xs ind ws rest hsize hws
    cases fuel with
    | zero => exact absurd hsize (by have := jsizeL_pos xs; omega)
    | succ f =>
    obtain ⟨ih1, ih2, ih3⟩ := ih f (Nat.lt_succ_self f)
    cases xs with
    | nil =>
        rw [show dumpArrTail ind ([] : List Json) = [] from by rw [dumpArrTail],
          List.nil_append]
        exact parseArrTail_step_nil f
          (by rw [skipWs_append hws]; exact skipWs_not_ws (by decide) _)
    | cons y ys =>
        have hsz : jsizeV y ≤ f ∧ jsizeL ys ≤ f := by
          have hp1 := jsizeV_pos y
          have hp2 := jsizeL_pos ys
          simp only [jsizeL] at hsize
          omega
        have hd : dumpArrTail ind (y :: ys) ++ (ws ++ (']' :: rest)) =
            ',' :: (('\n' :: pad ind) ++ (dumpV ind y ++
              (dumpArrTail ind ys ++ (ws ++ (']' :: rest))))) := by
          rw [dumpArrTail]
          simp [List.append_assoc]
        rw [hd]
        have h2 : parseV f (('\n' :: pad ind) ++ (dumpV ind y ++
            (dumpArrTail ind ys ++ (ws ++ (']' :: rest))))) =
            some (y, dumpArrTail ind ys ++ (ws ++ (']' :: rest))) := by
          rw [parseV_ws (nlPad_wsList ind)]
          exact ih1 y ind _ hsz.1 (noLeadDigit_arrTail ind ys rest hws)
        have h3 : parseArrTail f (dumpArrTail ind ys ++ (ws ++ (']' :: rest))) =
            some (ys, rest) := ih2 ys ind ws rest hsz.2 hws
        exact parseArrTail_step_cons f (skipWs_not_ws (by decide) _) h2 h3
  · intro kvs ind ws rest hsize hws
    cases fuel with
    | zero => exact absurd hsize (by have := jsizeO_pos kvs; omega)
    | succ f =>
    obtain ⟨ih1, ih2, ih3⟩ := ih f (Nat.lt_succ_self f)
    cases kvs with
    | nil =>
        rw [show dumpObjTail ind ([] : List (String × Json)) = [] from by rw [dumpObjTail],
          List.nil_append]
        exact parseObjTail_step_nil f
          (by rw [skipWs_append hws]; exact skipWs_not_ws (by decide) _)
    | cons kv kvs =>
        obtain ⟨k, v⟩ := kv
        have hsz : jsizeV v ≤ f ∧ jsizeO kvs ≤ f := by
          have hp1 := jsizeV_pos v
          have hp2 := jsizeO_pos kvs
          simp only [jsizeO] at hsize
          omega
        have hd : dumpObjTail ind ((k, v) :: kvs) ++ (ws ++ (rbrace :: rest)) =
            ',' :: (('\n' :: pad ind) ++ ('"' :: (escString k.data ++
              ('"' :: (':' :: (' ' :: (dumpV ind v ++
                (dumpObjTail ind kvs ++ (ws ++ (rbrace :: rest)))))))))) := by
          rw [dumpObjTail, dumpStr]
          simp [List.append_assoc]
        rw [hd]
        have h2 : skipWs (('\n' :: pad ind) ++ ('"' :: (escString k.data ++
            ('"' :: (':' :: (' ' :: (dumpV ind v ++
              (dumpObjTail ind kvs ++ (ws ++ (rbrace :: rest)))))))))) =
            '"' :: (escString k.data ++
            ('"' :: (':' :: (' ' :: (dumpV ind v ++
              (dumpObjTail ind kvs ++ (ws ++ (rbrace :: rest)))))))) := by
          rw [skipWs_append (nlPad_wsList ind), skipWs_not_ws (by decide)]
        have h3 : parseStrBody (escString k.data ++
            ('"' :: (':' :: (' ' :: (dumpV ind v ++
              (dumpObjTail ind kvs ++ (ws ++ (rbrace :: rest)))))))) =
            some (k.data, ':' :: (' ' :: (dumpV ind v ++
              (dumpObjTail ind kvs ++ (ws ++ (rbrace :: rest)))))) :=
          parseStrBody_escString k.data _
        have h4 : skipWs (':' :: (' ' :: (dumpV ind v ++
            (dumpObjTail ind kvs ++ (ws ++ (rbrace :: rest)))))) =
            ':' :: (' ' :: (dumpV ind v ++
            (dumpObjTail ind kvs ++ (ws ++ (rbrace :: rest))))) :=
          skipWs_not_ws (by decide) _
        have h5 : parseV f (' ' :: (dumpV ind v ++
            (dumpObjTail ind kvs ++ (ws ++ (rbrace :: rest))))) =
            some (v, dumpObjTail ind kvs ++ (ws ++ (rbrace :: rest))) := by
          rw [show (' ' :: (dumpV ind v ++
              (dumpObjTail ind kvs ++ (ws ++ (rbrace :: rest))))) =
              [' '] ++ (dumpV ind v ++
              (dumpObjTail ind kvs ++ (ws ++ (rbrace :: rest)))) from rfl]
          rw [parseV_ws (by intro c hc; simp at hc; subst hc; decide)]
          exact ih1 v ind _ hsz.1 (noLeadDigit_objTail ind kvs rest hws)
        have h6 : parseObjTail f (dumpObjTail ind kvs ++ (ws ++ (rbrace :: rest))) =
            some (kvs, rest) := ih3 kvs ind ws rest hsz.2 hws
        have := parseObjTail_step_cons f (skipWs_not_ws (by decide) _) h2 h3 h4 h5 h6
        rw [this, stringMk_data]

theorem loads_dumps (v : Json) : loads (dumps v) = some v := by
  rw [loads, dumps]
  have hlen : (String.mk (dumpV 0 v)).length = (dumpV 0 v).length := rfl
  have hdata : (String.mk (dumpV 0 v)).data = dumpV 0 v := rfl
  rw [hlen, hdata]
  have h := (parseV_dumpV_mutual ((dumpV 0 v).length + 1)).1 v 0 []
    (le_trans (jsizeV_le_length v 0) (by omega)) trivial
  rw [List.append_nil] at h
  rw [h]
  rfl

/-! ## CSV export and the CLI layer

`main` exports with `csv.DictWriter(csv_file, fieldnames=results[0].keys())`,
`writeheader()` and `writerows(results)`.  `DictWriter` uses its defaults:
`restval=None` (missing keys become the empty cell) and `extrasaction='raise'`
(a key outside the fieldnames raises `ValueError`).  Cells go through `str()`
except `None`, which `csv` writes as the empty string; the `repr` used by
`str()` on nested containers is modelled without its inner-quote escaping,
which no claim touches. -/

/-- The apostrophe character used by Python `repr` for strings. -/
def squote : Char := Char.ofNat 39

mutual

/-- Python `str()`/`repr()` of a JSON-like value, as `csv` would render a
nested container cell. -/
def pyRepr : Json → String
  | .null => "None"
  | .bool true => "True"
  | .bool false => "False"
  | .num n => toString n
  | .str s => String.mk (squote :: s.data ++ [squote])
  | .arr xs => "[" ++ pyReprList xs ++ "]"
  | .obj kvs => "\x7b" ++ pyReprObj kvs ++ "\x7d"

def pyReprList : List Json → String
  | [] => ""
  | [x] => pyRepr x
  | x :: xs => pyRepr x ++ ", " ++ pyReprList xs

def pyReprObj : List (String × Json) → String
  | [] => ""
  | [(k, v)] => String.mk (squote :: k.data ++ [squote]) ++ ": " ++ pyRepr v
  | (k, v) :: kvs =>
      String.mk (squote :: k.data ++ [squote]) ++ ": " ++ pyRepr v ++ ", " ++ pyReprObj kvs

end

/-- How the `csv` writer renders one cell: the `restval` `None` of a missing
key and a `None` value become the empty string, everything else is `str()`. -/
def cellStr : Option Json → String
  | none => ""
  | some Json.null => ""
  | some (Json.bool true) => "True"
  | some (Json.bool false) => "False"
  | some (Json.num n) => toString n
  | some (Json.str s) => s
  | some (Json.arr xs) => pyRepr (Json.arr xs)
  | some (Json.obj kvs) => pyRepr (Json.obj kvs)

/-- `record.keys()`: the key list of a dict (insertion order),
`AttributeError` on anything else. -/
def pyKeys : Json → Except String (List String)
  | .obj kvs => .ok (kvs.map (fun kv => kv.1))
  | _ => .error "AttributeError: object has no attribute keys"

/-- `rowdict.get(key, None)` as the writer reads each column. -/
def pyGet (key : String) : Json → Option Json
  | .obj kvs => jLookup key kvs
  | _ => none

/-- `DictWriter._dict_to_list(rowdict)` with the default `extrasaction='raise'`
and `restval=None`: keys outside the header raise `ValueError`; otherwise each
header key is looked up in the record, missing keys giving the empty cell. -/
def dictToRow (fieldnames : List String) : Json → Except String (List String)
  | .obj kvs =>
      if kvs.any (fun kv => !fieldnames.contains kv.1) then
        .error "ValueError: dict contains fields not in fieldnames"
      else .ok (fieldnames.map (fun k => cellStr (pyGet k (Json.obj kvs))))
  | _ => .error "AttributeError: object has no attribute keys"

/-- `csv_writer.writerows(results)`: rows are written one at a time; the rows
before the first failing record stay written. -/
def rowsOf (fieldnames : List String) : List Json → List (List String) × Except String Unit
  | [] => ([], Except.ok ())
  | r :: rs =>
      match dictToRow fieldnames r with
      | .error e => ([], .error e)
      | .ok row =>
          let next := rowsOf fieldnames rs
          (row :: next.1, next.2)

/-- The `csv` branch of `main`.  `open(csv_filename, 'w')` runs first and
creates (or truncates) the file; only then does
`DictWriter(csv_file, fieldnames=results[0].keys())` evaluate `results[0]` —
an `IndexError` when the ResultSet is empty — and `writeheader`/`writerows`
append the rows.  The first component is the file's row content, `some` as
soon as the file is open; the second is the branch's outcome. -/
def csvExport (results : List Json) : Option (List (List String)) × Except String Unit :=
  match results with
  | [] => (some [], .error "IndexError: list index out of range")
  | r :: _ =>
      match pyKeys r with
      | .error e => (some [], .error e)
      | .ok fieldnames =>
          let rows := rowsOf fieldnames results
          (some (fieldnames :: rows.1), rows.2)

/-- The parsed CLI arguments. -/
structure Args where
  access_token : String
  category : String
  count : Int
  output : String
  deriving DecidableEq

/-- The raw command line: the required positional plus each option when
given. -/
structure RawArgs where
  access_token : String
  category : Option String
  count : Option Int
  output : Option String
  deriving DecidableEq

/-- The `choices` of `--output`. -/
def outputChoices : List String := ["json", "csv"]

/-- `parser.parse_args()`: defaults are filled in, and a `--output` value
outside its `choices` is rejected by argparse before `main` goes on. -/
def parseArgs (raw : RawArgs) : Except String Args :=
  if raw.output.getD "json" ∈ outputChoices then
    .ok { access_token := raw.access_token, category := raw.category.getD "licensing",
          count := raw.count.getD 1000, output := raw.output.getD "json" }
  else .error "argument --output: invalid choice"

/-- The observable effect of the `if args.output == 'json' / elif ... 'csv' /
else` chain at the end of `main`. -/
inductive ExportResult where
  | jsonFile (content : String)
  | csvFile (rows : Option (List (List String))) (outcome : Except String Unit)
  | invalidFormat

/-- The export step of `main` applied to the fetched results. -/
def exportStep (output : String) (results : List Json) : ExportResult :=
  if output = "json" then .jsonFile (dumps (Json.arr results))
  else if output = "csv" then
    let r := csvExport results
    .csvFile r.1 r.2
  else .invalidFormat

theorem rowsOf_ok_rows {fieldnames : List String} :
    ∀ list : List Json,
    (∀ r ∈ list, ∃ kvs, r = Json.obj kvs ∧ ∀ kv ∈ kvs, kv.1 ∈ fieldnames) →
    rowsOf fieldnames list =
      (list.map (fun r => fieldnames.map (fun k => cellStr (pyGet k r))), Except.ok ()) := by
  intro list
  induction list with
  | nil => intro _; rfl
  | cons r rs ih =>
      intro h
      obtain ⟨kvs, rfl, hkeys⟩ := h r (by simp)
      have hany : kvs.any (fun kv => !fieldnames.contains kv.1) = false := by
        rw [List.any_eq_false]
        intro kv hkv
        have hmem := hkeys kv hkv
        simpa [List.contains] using hmem
      have hrow : dictToRow fieldnames (Json.obj kvs) =
          .ok (fieldnames.map (fun k => cellStr (pyGet k (Json.obj kvs)))) := by
        simp only [dictToRow]
        rw [if_neg (by rw [hany]; simp)]
      have hrest := ih (fun r hr => h r (by simp [hr]))
      simp [rowsOf, hrow, hrest]

theorem rowsOf_error {fieldnames : List String} :
    ∀ (list : List Json) (r : Json), r ∈ list →
    (∃ e, dictToRow fieldnames r = Except.error e) →
    ∃ e, (rowsOf fieldnames list).2 = Except.error e := by
  intro list
  induction list with
  | nil => intro r hr; simp at hr
  | cons x xs ih =>
      intro r hr herr
      cases hx : dictToRow fieldnames x with
      | error e => exact ⟨e, by simp [rowsOf, hx]⟩
      | ok row =>
          rcases List.mem_cons.mp hr with rfl | hr2
          · obtain ⟨e, he⟩ := herr
            rw [he] at hx
            cases hx
          · obtain ⟨e, he2⟩ := ih r hr2 herr
            exact ⟨e, by simp [rowsOf, hx, he2]⟩

/-- C4 counterexample: on an empty ResultSet the CSV branch does raise
(`results[0]` is an `IndexError`), but an output file has been produced:
`open(csv_filename, 'w')` ran before the failing subscript and created
(or truncated) `paginated_results.csv`, so the file state is `some []`,
not `none`. -/
theorem csv_empty_creates_file :
    csvExport [] = (some [], Except.error "IndexError: list index out of range") ∧
    (csvExport []).1 ≠ none := by
  refine ⟨rfl, ?_⟩
  intro h
  rw [show (csvExport []).1 = some [] from rfl] at h
  cases h

/-- C4 amended: CSV export of an empty ResultSet raises an `IndexError`
(from `results[0]`) before writing any header or data row; the output file
has already been opened for writing and is left behind empty. -/
theorem csv_empty_raises :
    exportStep "csv" [] =
      ExportResult.csvFile (some []) (Except.error "IndexError: list index out of range") := rfl

/-- C5: in JSON mode the export step writes `json.dump(results, f, indent=2)`
to `paginated_results.json`, and parsing that text returns exactly the
in-memory ResultSet. -/
theorem json_export_roundtrip (results : List Json) :
    exportStep "json" results = ExportResult.jsonFile (dumps (Json.arr results)) ∧
    loads (dumps (Json.arr results)) = some (Json.arr results) :=
  ⟨rfl, loads_dumps (Json.arr results)⟩

/-- C6: a non-empty ResultSet of records that are all objects over the same
key set exports as exactly one header row — the first record's keys in that
record's order — followed by one data row per record, with success. -/
theorem csv_uniform_export {kvs0 : List (String × Json)} (rs : List Json)
    (hall : ∀ r ∈ Json.obj kvs0 :: rs, ∃ kvs, r = Json.obj kvs ∧
      (∀ k : String, k ∈ kvs.map Prod.fst ↔ k ∈ kvs0.map Prod.fst)) :
    ∃ dataRows, csvExport (Json.obj kvs0 :: rs) =
      (some ((kvs0.map Prod.fst) :: dataRows), Except.ok ()) ∧
      dataRows.length = (Json.obj kvs0 :: rs).length := by
  have hsub : ∀ r ∈ Json.obj kvs0 :: rs, ∃ kvs, r = Json.obj kvs ∧
      ∀ kv ∈ kvs, kv.1 ∈ kvs0.map Prod.fst := by
    intro r hr
    obtain ⟨kvs, rfl, hiff⟩ := hall r hr
    exact ⟨kvs, rfl, fun kv hkv => (hiff kv.1).mp (List.mem_map_of_mem Prod.fst hkv)⟩
  have hrows := rowsOf_ok_rows (Json.obj kvs0 :: rs) hsub
  refine ⟨(Json.obj kvs0 :: rs).map (fun r =>
    (kvs0.map Prod.fst).map (fun k => cellStr (pyGet k r))), ?_, by simp⟩
  simp [csvExport, pyKeys, hrows]

/-- Witness for C6: two records with the same keys in different order. -/
theorem csv_uniform_export_witness :
    csvExport [Json.obj [("a", Json.num 1), ("b", Json.str "x")],
               Json.obj [("b", Json.str "y"), ("a", Json.num 2)]] =
      (some [["a", "b"], ["1", "x"], ["2", "y"]], Except.ok ()) := by
  have h := @csv_uniform_export
    [("a", Json.num 1), ("b", Json.str "x")]
    [Json.obj [("b", Json.str "y"), ("a", Json.num 2)]] (by
      intro r hr
      simp only [List.mem_cons, List.not_mem_nil, or_false] at hr
      rcases hr with rfl | rfl
      · exact ⟨_, rfl, fun k => Iff.rfl⟩
      · refine ⟨[("b", Json.str "y"), ("a", Json.num 2)], rfl, fun k => ?_⟩
        simp only [List.map_cons, List.map_nil, List.mem_cons, List.not_mem_nil, or_false]
        tauto)
  obtain ⟨dataRows, heq, hlen⟩ := h
  have heq2 : csvExport [Json.obj [("a", Json.num 1), ("b", Json.str "x")],
      Json.obj [("b", Json.str "y"), ("a", Json.num 2)]] =
      (some (["a", "b"] :: dataRows), Except.ok ()) := heq
  have hconc : (some (["a", "b"] :: dataRows), (Except.ok () : Except String Unit)) =
      (some [["a", "b"], ["1", "x"], ["2", "y"]], Except.ok ()) := by
    rw [← heq2]
    rfl
  rw [heq2]
  exact hconc

/-- C7 counterexample: the second record's key set differs from the header
(it lacks `b`), yet the write succeeds — the missing column is rendered as an
empty cell instead of failing. -/
theorem csv_missing_key_not_failing :
    csvExport [Json.obj [("a", Json.num 1), ("b", Json.num 2)], Json.obj [("a", Json.num 3)]] =
      (some [["a", "b"], ["1", "2"], ["3", ""]], Except.ok ()) ∧
    "b" ∈ ["a", "b"] ∧ "b" ∉ (["a"] : List String) := by
  refine ⟨rfl, by simp, by simp⟩

/-- C7 amended: a record whose keys all lie inside the header (even if some
header keys are missing) is written by key lookup with the missing columns as
empty cells, while a record with a key outside the header makes the write fail
with a `ValueError`. -/
theorem csv_key_mismatch_behavior {kvs0 : List (String × Json)} (rs : List Json) :
    ((∀ r ∈ Json.obj kvs0 :: rs, ∃ kvs, r = Json.obj kvs ∧
        ∀ kv ∈ kvs, kv.1 ∈ kvs0.map Prod.fst) →
      csvExport (Json.obj kvs0 :: rs) =
        (some ((kvs0.map Prod.fst) ::
          (Json.obj kvs0 :: rs).map (fun r =>
            (kvs0.map Prod.fst).map (fun k => cellStr (pyGet k r)))),
         Except.ok ())) ∧
    ((∃ r ∈ Json.obj kvs0 :: rs, ∃ kvs k, r = Json.obj kvs ∧ k ∈ kvs.map Prod.fst ∧
        k ∉ kvs0.map Prod.fst) →
      ∃ e, (csvExport (Json.obj kvs0 :: rs)).2 = Except.error e) := by
  constructor
  · intro hsub
    have hrows := rowsOf_ok_rows (Json.obj kvs0 :: rs) hsub
    simp [csvExport, pyKeys, hrows]
  · rintro ⟨r, hr, kvs, k, rfl, hk, hknot⟩
    have herr : ∃ e, dictToRow (kvs0.map Prod.fst) (Json.obj kvs) = Except.error e := by
      have hany : kvs.any (fun kv => !(kvs0.map Prod.fst).contains kv.1) = true := by
        rw [List.any_eq_true]
        obtain ⟨kv, hkv, hfst⟩ := List.mem_map.mp hk
        refine ⟨kv, hkv, ?_⟩
        subst hfst
        cases helem : (kvs0.map Prod.fst).contains kv.1 with
        | false => rfl
        | true => exact absurd (List.elem_iff.mp helem) hknot
      refine ⟨"ValueError: dict contains fields not in fieldnames", ?_⟩
      simp only [dictToRow]
      rw [if_pos (by rw [hany])]
    obtain ⟨e, he⟩ := rowsOf_error (Json.obj kvs0 :: rs) _ hr herr
    refine ⟨e, ?_⟩
    simp [csvExport, pyKeys, he]

/-- Witness for C7 (amended): a record with the extra key `c` fails the
write; the subset side is exercised by the C6 witness's shape. -/
theorem csv_key_mismatch_behavior_witness :
    ∃ e, (csvExport [Json.obj [("a", Json.num 1)],
      Json.obj [("a", Json.num 2), ("c", Json.num 3)]]).2 = Except.error e := by
  have h := (@csv_key_mismatch_behavior [("a", Json.num 1)]
    [Json.obj [("a", Json.num 2), ("c", Json.num 3)]]).2
    ⟨Json.obj [("a", Json.num 2), ("c", Json.num 3)], by simp, [("a", Json.num 2), ("c", Json.num 3)],
      "c", rfl, by simp, by simp⟩
  exact h

/-- C9: a run that reaches the export step got its arguments through
`parse_args`, whose `choices=['json', 'csv']` already rejected any other
`--output` value, so the final `Invalid output format` branch is
unreachable. -/
theorem output_validated {raw : RawArgs} {args : Args} (results : List Json)
    (h : parseArgs raw = Except.ok args) :
    exportStep args.output results ≠ ExportResult.invalidFormat := by
  have hout : args.output = "json" ∨ args.output = "csv" := by
    rw [parseArgs] at h
    by_cases hc : raw.output.getD "json" ∈ outputChoices
    · rw [if_pos hc] at h
      cases h
      simpa only [outputChoices, List.mem_cons, List.not_mem_nil, or_false] using hc
    · rw [if_neg hc] at h
      cases h
  rcases hout with h1 | h1 <;> rw [h1] <;> intro hF
  · rw [show exportStep "json" results = ExportResult.jsonFile (dumps (Json.arr results))
      from rfl] at hF
    cases hF
  · rw [show exportStep "csv" results =
      ExportResult.csvFile (csvExport results).1 (csvExport results).2 from rfl] at hF
    cases hF

/-- Witness for C9 at a concrete command line (`--output csv`). -/
theorem output_validated_witness :
    exportStep (Args.mk "tok" "licensing" 1000 "csv").output [] ≠ ExportResult.invalidFormat :=
  @output_validated (RawArgs.mk "tok" none none (some "csv"))
    (Args.mk "tok" "licensing" 1000 "csv") [] rfl
